import Mathlib

/-!
Verification of the archive-backed asset resolver of the gltf-display-fantasy
repository (src/utils/zipUtils.ts together with the ZIP upload handler of the
viewer component).  The TypeScript source is shallowly embedded: each JS string
operation is modelled by an executable Lean function over the character data of
the string, stateful archive extraction becomes a pure function from a list of
archive entries to a list of extracted-file records, and the asynchronous
loader becomes a pure function parameterised by oracles for JSON parsing and
network fetching.  Browser object URLs (the content handles issued per
extracted member) are modelled as opaque strings that are unique per member
and share no text with archive paths, matching the UUID-based URLs issued by
URL.createObjectURL.
-/

namespace ZipUtils

/-- JS s.toLowerCase, restricted to the ASCII strings the resolver handles. -/
def lowerStr (s : String) : String := ⟨s.data.map Char.toLower⟩

/-- JS s.split(sep)[0] for a one-character separator: the characters before the
first occurrence of the separator. -/
def beforeChar (c : Char) (s : String) : String := ⟨s.data.takeWhile (· ≠ c)⟩

/-- JS s.replace(/\\/g, '/'): every backslash becomes a forward slash. -/
def replaceBackslash (s : String) : String :=
  ⟨s.data.map (fun ch => if ch = '\\' then '/' else ch)⟩

/-- JS s.split(c) on character lists: always returns at least one chunk, and
empty chunks are kept, exactly like the JavaScript String.split. -/
def splitOnChar (c : Char) : List Char → List (List Char)
  | [] => [[]]
  | x :: xs =>
    let rest := splitOnChar c xs
    if x = c then [] :: rest
    else match rest with
      | [] => [[x]]
      | r :: rs => (x :: r) :: rs

/-- JS arr.pop() on the (never empty) result of a split: the last chunk. -/
def jsPop (l : List (List Char)) : List Char := l.getLastD []

/-- JS s.split('/').pop() as a string-to-string operation. -/
def lastSlashChunk (s : String) : String := ⟨jsPop (splitOnChar '/' s.data)⟩

/-- JS s.split('.').pop() as a string-to-string operation. -/
def lastDotChunk (s : String) : String := ⟨jsPop (splitOnChar '.' s.data)⟩

/-- JS s.split('/').pop() || s: the final slash-delimited chunk, or the whole
string when that chunk is empty (the empty string is falsy in JS). -/
def popOrSelf (s : String) : String :=
  let fn := lastSlashChunk s
  if fn = "" then s else fn

/-- JS t.endsWith(u) via list suffix testing on the character data. -/
def strEndsWith (s t : String) : Bool := t.data.isSuffixOf s.data

/-- JS s.includes(c) for a single character. -/
def strHasChar (c : Char) (s : String) : Bool := s.data.contains c

/-- JS path.substring(path.indexOf('/') + 1): everything after the first
slash.  Only invoked by the source under a path.includes('/') guard. -/
def afterFirstSlash (s : String) : String :=
  ⟨(s.data.dropWhile (· ≠ '/')).drop 1⟩

/-- JS path.substring(0, path.lastIndexOf('/') + 1): the directory part of a
path, final slash included.  Only invoked under a path.includes('/') guard. -/
def dirOfPath (s : String) : String :=
  ⟨((s.data.reverse.dropWhile (· ≠ '/'))).reverse⟩

/-- One entry of the ZIP container as enumerated by JSZip: its full archive
path, whether it is a directory entry, and (for files) its decoded byte
buffer, abstracted to an identifier since the resolver never inspects the
bytes of non-document members. -/
structure ZipEntry where
  path : String
  isDir : Bool
  data : Nat
deriving DecidableEq

/-- Shallow embedding of the ExtractedFile record of zipUtils.ts.  The url
field holds the object URL issued for the member by URL.createObjectURL,
modelled as an opaque per-member string (see fileOfEntry); data is the owned
byte buffer, abstracted to an identifier.  The mimeType computed by the
source is local to extraction and never stored, so it is not modelled. -/
structure ExtractedFile where
  name : String
  path : String
  url : String
  isGltf : Bool
  data : Nat
deriving DecidableEq

/-- Extension classification of extractZipFile:
filename.split('.').pop()?.toLowerCase() applied to the full archive path. -/
def extLower (path : String) : String := lowerStr (lastDotChunk path)

/-- Builds one ExtractedFile from a non-directory entry, mirroring the push in
extractZipFile: name is filename.split('/').pop() || filename, path is the
full archive path, isGltf tests the gltf and glb extensions, and the object
URL is modelled as an opaque string derived from the running member index
(real object URLs are UUID-based and share no text with archive paths). -/
def fileOfEntry (idx : Nat) (e : ZipEntry) : ExtractedFile :=
  { name := popOrSelf e.path
  , path := e.path
  , url := "blob:http://localhost/obj-" ++ toString idx
  , isGltf := extLower e.path == "gltf" || extLower e.path == "glb"
  , data := e.data }

/-- Extraction loop of extractZipFile: directory entries are skipped, each
file entry produces one ExtractedFile.  Members are kept in archive
enumeration order and idx numbers the object URLs consecutively. -/
def extractLoop (idx : Nat) : List ZipEntry → List ExtractedFile
  | [] => []
  | e :: es =>
    if e.isDir then extractLoop idx es
    else fileOfEntry idx e :: extractLoop (idx + 1) es

/-- Message shown by extractZipFile when the archive holds no scene document. -/
def noSceneMsg : String := "No se encontraron archivos GLTF o GLB en el ZIP"

/-- Shallow embedding of extractZipFile: extracts every file member and fails
with the no-scene-document error when no member classified as GLTF or GLB.
The Except value models the null-plus-toast return of the source, with the
error carrying the toast description. -/
def extractZipFile (entries : List ZipEntry) : Except String (List ExtractedFile) :=
  let extractedFiles := extractLoop 0 entries
  if (extractedFiles.filter (·.isGltf)).length = 0 then Except.error noSceneMsg
  else Except.ok extractedFiles

/-- The Index of createZipResourceLoader, a JS Map from normalized key to
ExtractedFile, modelled as a function with pointwise update. -/
def FileMap : Type := String → Option ExtractedFile

/-- JS map.set(k, v): pointwise overwrite. -/
def mapSet (m : FileMap) (k : String) (v : ExtractedFile) : FileMap :=
  fun k' => if k' = k then some v else m k'

/-- The empty Map. -/
def mapEmpty : FileMap := fun _ => none

/-- Registration of one file in the Index, following the forEach body of
createZipResourceLoader line by line: set the lower-cased name, set the
lower-cased full path, set the lower-cased path with the leading directory
stripped when the path contains a slash, and finally set the bare basename
only if absent (this last set is a no-op because the basename equals the
name key written by the first set, but it is kept for faithfulness). -/
def insertFile (m : FileMap) (f : ExtractedFile) : FileMap :=
  let m1 := mapSet m (lowerStr f.name) f
  let m2 := mapSet m1 (lowerStr f.path) f
  let m3 :=
    if strHasChar '/' f.path then mapSet m2 (lowerStr (afterFirstSlash f.path)) f
    else m2
  let baseName := lowerStr f.name
  if (m3 baseName).isSome then m3 else mapSet m3 baseName f

/-- The full Index over the extracted files, built in enumeration order. -/
def buildFileMap (files : List ExtractedFile) : FileMap :=
  files.foldl insertFile mapEmpty

/-- The keys that insertFile registers for a file, as a list. -/
def keysFor (f : ExtractedFile) : List String :=
  [lowerStr f.name, lowerStr f.path] ++
    (if strHasChar '/' f.path then [lowerStr (afterFirstSlash f.path)] else [])

/-- The binary-buffer pool: extractedFiles.filter(f =>
f.name.toLowerCase().endsWith('.bin')), in enumeration order. -/
def binFilesOf (files : List ExtractedFile) : List ExtractedFile :=
  files.filter (fun f => strEndsWith (lowerStr f.name) ".bin")

/-- First-match choice between two optional results, mirroring the JS
or-chains (a || b) over possibly-undefined lookup results. -/
def firstSome {α : Type} (a b : Option α) : Option α :=
  match a with
  | some x => some x
  | none => b

/-- Normalization of a requested URL in the returned loader:
url.split('?')[0].toLowerCase() followed by replacing backslashes. -/
def normalizeRef (url : String) : String :=
  replaceBackslash (lowerStr (beforeChar '?' url))

/-- Filename extraction of the loader: normalizedUrl.split('/').pop() ||
normalizedUrl. -/
def refFilename (normalizedUrl : String) : String := popOrSelf normalizedUrl

/-- The base lookup chain of the loader (the five-way or-chain assigning
file): Index lookup on the normalized URL, Index lookup on the filename, scan
for a path ending with the normalized URL, scan for a path ending with a
slash followed by the filename, scan for a name equal to the filename. -/
def findFileBase (files : List ExtractedFile) (normalizedUrl filename : String) :
    Option ExtractedFile :=
  firstSome (buildFileMap files normalizedUrl)
    (firstSome (buildFileMap files filename)
      (firstSome (files.find? (fun f => strEndsWith (lowerStr f.path) normalizedUrl))
        (firstSome (files.find? (fun f => strEndsWith (lowerStr f.path) ("/" ++ filename)))
          (files.find? (fun f => lowerStr f.name == filename)))))

/-- The special bin-file handling of the loader, entered when the base chain
failed and the filename ends in .bin: first an exact case-insensitive name
lookup, then the scan for bin files sharing a slash-delimited path segment
with the requested URL (taking the first such), and as last resort the first
bin file of the pool. -/
def findFileBin (files : List ExtractedFile) (normalizedUrl filename : String) :
    Option ExtractedFile :=
  let binFiles := binFilesOf files
  firstSome (files.find? (fun f => lowerStr f.name == lowerStr filename))
    (let potentialMatches := binFiles.filter (fun f =>
      (splitOnChar '/' normalizedUrl.data).any (fun part =>
        (splitOnChar '/' (lowerStr f.path).data).contains (part.map Char.toLower)))
     match potentialMatches with
     | p :: _ => some p
     | [] => binFiles.head?)

/-- Complete file-selection logic of the loader, for an already normalized
URL and filename. -/
def findFileNorm (files : List ExtractedFile) (normalizedUrl filename : String) :
    Option ExtractedFile :=
  match findFileBase files normalizedUrl filename with
  | some f => some f
  | none =>
    if strEndsWith filename ".bin" then findFileBin files normalizedUrl filename
    else none

/-- Complete file-selection logic of the loader on a raw URL. -/
def findFile (files : List ExtractedFile) (url : String) : Option ExtractedFile :=
  let normalizedUrl := normalizeRef url
  findFileNorm files normalizedUrl (refFilename normalizedUrl)

/-- One entry of the images array of a parsed GLTF document; only the uri
field is read or written by the rewriter, so only it is modelled. -/
structure GltfImage where
  uri : Option String
deriving DecidableEq

/-- One entry of the buffers array of a parsed GLTF document. -/
structure GltfBuffer where
  uri : Option String
deriving DecidableEq

/-- The parsed scene document, restricted to the two reference arrays the
rewriter touches; none models an absent array (the if (gltfJson.images) and
if (gltfJson.buffers) guards). -/
structure GltfDoc where
  images : Option (List GltfImage)
  buffers : Option (List GltfBuffer)
deriving DecidableEq

/-- The shared reference-resolution chain of the rewriter, used identically
for images and buffers: Index lookup on the lower-cased uri, Index lookup on
the lower-cased uri prefixed with the document directory, then a combined
scan comparing the lower-cased path with the uri and with the prefixed uri,
testing the path for a suffix of slash-plus-uri, and comparing the name with
the uri. -/
def rewriteResolve (files : List ExtractedFile) (gltfDir uri : String) :
    Option ExtractedFile :=
  let absolutePath := gltfDir ++ uri
  firstSome (buildFileMap files (lowerStr uri))
    (firstSome (buildFileMap files (lowerStr absolutePath))
      (files.find? (fun f =>
        lowerStr f.path == lowerStr uri ||
        lowerStr f.path == lowerStr absolutePath ||
        strEndsWith (lowerStr f.path) ("/" ++ lowerStr uri) ||
        lowerStr f.name == lowerStr uri)))

/-- Step-instrumented variant of rewriteResolve: returns the 1-based position
of the first lookup of the chain that produced the file (1 = Index lookup on
the uri, 2 = Index lookup on the directory-prefixed uri, 3 = the combined
scan). -/
def rewriteResolveStep (files : List ExtractedFile) (gltfDir uri : String) :
    Option (Nat × ExtractedFile) :=
  let absolutePath := gltfDir ++ uri
  match buildFileMap files (lowerStr uri) with
  | some f => some (1, f)
  | none =>
    match buildFileMap files (lowerStr absolutePath) with
    | some f => some (2, f)
    | none =>
      match files.find? (fun f =>
        lowerStr f.path == lowerStr uri ||
        lowerStr f.path == lowerStr absolutePath ||
        strEndsWith (lowerStr f.path) ("/" ++ lowerStr uri) ||
        lowerStr f.name == lowerStr uri) with
      | some f => some (3, f)
      | none => none

/-- Buffer-only fallbacks of the rewriter, tried when the shared chain found
nothing: lookup by the bare lower-cased filename of the uri, then the first
bin file of the pool when that pool is non-empty. -/
def bufferFallback (files : List ExtractedFile) (uri : String) : Option ExtractedFile :=
  let bufferFilename := lowerStr (lastSlashChunk uri)
  firstSome (files.find? (fun f => lowerStr f.name == bufferFilename))
    (binFilesOf files).head?

/-- Diagnostic emitted when an image uri resolves to no member. -/
def imageNotFoundMsg (uri absolutePath : String) : String :=
  "Image not found: " ++ uri ++ " (absolute: " ++ absolutePath ++ ")"

/-- Diagnostic emitted when a buffer uri fails the shared chain (the source
then tries the fallbacks). -/
def bufferTryFallbackMsg (uri : String) : String :=
  "Buffer not found: " ++ uri ++ ". Trying fallbacks..."

/-- Diagnostic emitted when a buffer uri resolves to no member at all. -/
def bufferNotFoundMsg (uri : String) : String :=
  "CRITICAL: No buffer file found for " ++ uri

/-- Rewriting of a single images entry: a present, non-empty uri is resolved
through the shared chain and replaced by the object URL of the resolved
member; an unresolved uri is left unchanged with a warning diagnostic.
Informational console.log lines of the source are not collected. -/
def rewriteImage (files : List ExtractedFile) (gltfDir : String) (img : GltfImage) :
    GltfImage × List String :=
  match img.uri with
  | none => (img, [])
  | some u =>
    if u = "" then (img, [])
    else
      match rewriteResolve files gltfDir u with
      | some f => ({ uri := some f.url }, [])
      | none => (img, [imageNotFoundMsg u (gltfDir ++ u)])

/-- Rewriting of a single buffers entry, with the buffer-only fallbacks. -/
def rewriteBuffer (files : List ExtractedFile) (gltfDir : String) (b : GltfBuffer) :
    GltfBuffer × List String :=
  match b.uri with
  | none => (b, [])
  | some u =>
    if u = "" then (b, [])
    else
      match rewriteResolve files gltfDir u with
      | some f => ({ uri := some f.url }, [])
      | none =>
        match bufferFallback files u with
        | some f => ({ uri := some f.url }, [bufferTryFallbackMsg u])
        | none => (b, [bufferTryFallbackMsg u, bufferNotFoundMsg u])

/-- Pointwise rewriting of a reference array, concatenating diagnostics in
entry order. -/
def rewriteList {α : Type} (step : α → α × List String) : List α → List α × List String
  | [] => ([], [])
  | x :: xs =>
    let (y, d) := step x
    let (ys, ds) := rewriteList step xs
    (y :: ys, d ++ ds)

/-- The document rewriter of createZipResourceLoader for a scene document
located at docPath: computes the document directory and rewrites the images
and buffers arrays in place, leaving an absent array absent.  Returns the
rewritten document together with the emitted diagnostics. -/
def rewriteGltfDoc (files : List ExtractedFile) (docPath : String) (doc : GltfDoc) :
    GltfDoc × List String :=
  let gltfDir := if strHasChar '/' docPath then dirOfPath docPath else ""
  let (imgs, d1) :=
    match doc.images with
    | none => (none, [])
    | some l =>
      let (l', d) := rewriteList (rewriteImage files gltfDir) l
      (some l', d)
  let (bufs, d2) :=
    match doc.buffers with
    | none => (none, [])
    | some l =>
      let (l', d) := rewriteList (rewriteBuffer files gltfDir) l
      (some l', d)
  ({ images := imgs, buffers := bufs }, d1 ++ d2)

/-- Result of one loader invocation: raw bytes of a member or of a network
response, the re-serialized text of a rewritten scene document, or a thrown
error carrying a message. -/
inductive LoadResult where
  | bytes (data : Nat)
  | text (doc : GltfDoc)
  | error (msg : String)
deriving DecidableEq

/-- Message of the error thrown when the loader exhausts every strategy; the
source throws new Error with the template containing the requested url and
the underlying fetch error. -/
def loadFailMsg (url : String) : String := "Failed to load " ++ url

/-- Shallow embedding of the function returned by createZipResourceLoader.
parseDoc is the JSON.parse oracle, mapping a scene document byte buffer to
its parsed form or failing; network is the fetch oracle, mapping a URL to
response bytes or failing (covering both the blob: and the external-URL
branch of the source, whose behavior is identical: fetch, then arrayBuffer,
then throw on failure).  Extracted members always carry their data buffer, so
the file.data truthiness test of the source is always satisfied. -/
def loadResource (files : List ExtractedFile) (parseDoc : Nat → Option GltfDoc)
    (network : String → Option Nat) (url : String) : LoadResult :=
  match findFile files url with
  | some f =>
    if f.isGltf && strEndsWith f.name ".gltf" then
      match parseDoc f.data with
      | none => LoadResult.error "Failed to parse GLTF JSON"
      | some doc => LoadResult.text (rewriteGltfDoc files f.path doc).1
    else LoadResult.bytes f.data
  | none =>
    match network url with
    | some b => LoadResult.bytes b
    | none => LoadResult.error (loadFailMsg url)

end ZipUtils

namespace Viewer

open ZipUtils

/-- The configured maximum archive size of the viewer component, in bytes:
500 * 1024 * 1024. -/
def MAX_FILE_SIZE : Nat := 500 * 1024 * 1024

/-- The size reported by the oversize toast, in hundredths of a MiB: the
source renders (file.size / 1024 / 1024).toFixed(2), i.e. the size divided by
1048576 and rounded to two decimal places; modelled in exact arithmetic as
round-to-nearest of 100 * size / 1048576 (the inputs of interest are far from
rounding ties, where double rounding and exact rounding agree). -/
def reportedCentiMiB (size : Nat) : Nat := (size * 100 + 524288) / 1048576

/-- Outcome of the ZIP upload handler of the viewer component. -/
inductive UploadResult where
  | formatError
  | sizeError (reportedCentiMiB : Nat) (limitMiB : Nat)
  | extractionFailed (msg : String)
  | loaded (files : List ExtractedFile) (gltfName : String)
deriving DecidableEq

/-- Shallow embedding of handleZipFileUpload: reject non-ZIP names, reject
oversize inputs with a toast reporting the rounded size and the limit before
extraction is invoked, then extract and select the first GLTF member.  The
archive contents enter only through entries, which the oversize branch never
examines. -/
def handleZipFileUpload (fileName : String) (size : Nat) (entries : List ZipEntry) :
    UploadResult :=
  if ¬ strEndsWith (lowerStr fileName) ".zip" then UploadResult.formatError
  else if size > MAX_FILE_SIZE then
    UploadResult.sizeError (reportedCentiMiB size) (MAX_FILE_SIZE / 1024 / 1024)
  else
    match extractZipFile entries with
    | Except.error m => UploadResult.extractionFailed m
    | Except.ok files =>
      match files.find? (·.isGltf) with
      | none => UploadResult.extractionFailed noSceneMsg
      | some gltfFile => UploadResult.loaded files gltfFile.name

end Viewer

namespace SpecModel

open ZipUtils

/-- Value of a hexadecimal digit, or none. -/
def hexVal (c : Char) : Option Nat :=
  if '0' ≤ c ∧ c ≤ '9' then some (c.toNat - '0'.toNat)
  else if 'a' ≤ c ∧ c ≤ 'f' then some (c.toNat - 'a'.toNat + 10)
  else if 'A' ≤ c ∧ c ≤ 'F' then some (c.toNat - 'A'.toNat + 10)
  else none

/-- Modelled from the spec: the percent-decoding step its normalization
prescribes (the source resolver of zipUtils.ts has no such step, so this
definition follows the spec words; single-byte escapes only, which suffices
for the comparison). -/
def percentDecode : List Char → List Char
  | '%' :: h1 :: h2 :: rest =>
    match hexVal h1, hexVal h2 with
    | some a, some b => Char.ofNat (a * 16 + b) :: percentDecode rest
    | _, _ => '%' :: percentDecode (h1 :: h2 :: rest)
  | c :: rest => c :: percentDecode rest
  | [] => []

/-- Modelled from the spec: normalization as the spec states it, in the
stated order - strip any query component, replace backslashes with forward
slashes, percent-decode, lower-case the whole string. -/
def specNormalizeRef (url : String) : String :=
  lowerStr ⟨percentDecode (replaceBackslash (beforeChar '?' url)).data⟩

end SpecModel

namespace ZipUtils

theorem firstSome_some {α : Type} (x : α) (b : Option α) : firstSome (some x) b = some x := rfl

theorem firstSome_none {α : Type} (b : Option α) : firstSome none b = b := rfl

theorem firstSome_eq_or {α : Type} (a b : Option α) : firstSome a b = a.or b := by
  cases a <;> rfl

theorem strEndsWith_iff {s t : String} : strEndsWith s t = true ↔ t.data <:+ s.data := by
  simp [strEndsWith, List.isSuffixOf_iff_suffix]

theorem splitOnChar_ne_nil (c : Char) (l : List Char) : splitOnChar c l ≠ [] := by
  cases l with
  | nil => simp [splitOnChar]
  | cons x xs =>
    unfold splitOnChar
    by_cases h : x = c
    · simp [h]
    · simp only [h, if_false]
      cases splitOnChar c xs <;> simp

theorem splitOnChar_single {c : Char} {l h : List Char}
    (e : splitOnChar c l = [h]) : h = l := by
  induction l generalizing h with
  | nil =>
    simp [splitOnChar] at e
    exact e
  | cons x xs ih =>
    unfold splitOnChar at e
    by_cases hx : x = c
    · rw [if_pos hx] at e
      have htl : splitOnChar c xs = [] := (List.cons_eq_cons.mp e).2
      exact absurd htl (splitOnChar_ne_nil c xs)
    · rw [if_neg hx] at e
      cases e' : splitOnChar c xs with
      | nil => exact absurd e' (splitOnChar_ne_nil c xs)
      | cons r rs =>
        rw [e'] at e
        obtain ⟨eh, et⟩ := List.cons_eq_cons.mp e
        subst et
        have : r = xs := ih (by rw [e'])
        subst this
        exact eh.symm

theorem jsPop_suffix (c : Char) (l : List Char) : jsPop (splitOnChar c l) <:+ l := by
  induction l with
  | nil => simp [splitOnChar, jsPop]
  | cons x xs ih =>
    unfold splitOnChar
    by_cases hx : x = c
    · rw [if_pos hx]
      have : jsPop ([] :: splitOnChar c xs) = jsPop (splitOnChar c xs) := by
        simp only [jsPop, List.getLastD_cons]
      rw [this]
      exact ih.trans (List.suffix_cons x xs)
    · rw [if_neg hx]
      cases e' : splitOnChar c xs with
      | nil => exact absurd e' (splitOnChar_ne_nil c xs)
      | cons r rs =>
        cases rs with
        | nil =>
          have hr : r = xs := splitOnChar_single e'
          subst hr
          simp [jsPop]
        | cons r2 rs2 =>
          have h1 : jsPop ((x :: r) :: r2 :: rs2) = jsPop (r :: r2 :: rs2) := by
            simp only [jsPop, List.getLastD_cons]
          rw [h1, ← e']
          exact ih.trans (List.suffix_cons x xs)

theorem lastSlashChunk_suffix (s : String) : (lastSlashChunk s).data <:+ s.data :=
  jsPop_suffix '/' s.data

theorem popOrSelf_suffix (s : String) : (popOrSelf s).data <:+ s.data := by
  unfold popOrSelf
  by_cases h : lastSlashChunk s = ""
  · rw [if_pos h]
  · rw [if_neg h]
    exact lastSlashChunk_suffix s

theorem afterFirstSlash_suffix (s : String) : (afterFirstSlash s).data <:+ s.data := by
  unfold afterFirstSlash
  exact (List.drop_suffix 1 _).trans (List.dropWhile_suffix _)

theorem lowerStr_data (s : String) : (lowerStr s).data = s.data.map Char.toLower := rfl

theorem suffix_lowerStr {s t : String} (h : s.data <:+ t.data) :
    (lowerStr s).data <:+ (lowerStr t).data := by
  rw [lowerStr_data, lowerStr_data]
  exact h.map Char.toLower

theorem getLast?_of_suffix {l m : List Char} (h : l <:+ m) (hne : l ≠ []) :
    m.getLast? = l.getLast? := by
  obtain ⟨p, rfl⟩ := h
  exact List.getLast?_append_of_ne_nil p hne

theorem bin_gltf_clash {L : List Char} (h1 : ".bin".data <:+ L)
    (h2 : ".gltf".data <:+ L) : False := by
  have e1 := getLast?_of_suffix h1 (by decide)
  have e2 := getLast?_of_suffix h2 (by decide)
  rw [e1] at e2
  exact absurd e2 (by decide)

theorem insertFile_apply (m : FileMap) (f : ExtractedFile) (k : String) :
    insertFile m f k = if k ∈ keysFor f then some f else m k := by
  simp only [insertFile, mapSet, keysFor, List.mem_append, List.mem_cons,
    List.not_mem_nil, or_false]
  by_cases h1 : k = lowerStr f.name <;>
    by_cases h2 : k = lowerStr f.path <;>
      by_cases h3 : strHasChar '/' f.path = true <;>
        by_cases h4 : k = lowerStr (afterFirstSlash f.path) <;>
          simp_all [mapSet]

theorem buildFileMap_foldl (fs : List ExtractedFile) (m : FileMap) (k : String) :
    (fs.foldl insertFile m) k =
      firstSome (fs.reverse.find? fun f => decide (k ∈ keysFor f)) (m k) := by
  induction fs generalizing m with
  | nil => simp [firstSome]
  | cons g fs ih =>
    rw [List.foldl_cons, ih, List.reverse_cons, List.find?_append]
    rw [insertFile_apply]
    cases h : fs.reverse.find? (fun f => decide (k ∈ keysFor f)) with
    | some x => simp [firstSome, Option.or, h]
    | none =>
      by_cases hk : k ∈ keysFor g <;> simp [firstSome, Option.or, h, hk, List.find?]

theorem buildFileMap_apply (files : List ExtractedFile) (k : String) :
    buildFileMap files k = files.reverse.find? fun f => decide (k ∈ keysFor f) := by
  rw [buildFileMap, buildFileMap_foldl]
  cases files.reverse.find? fun f => decide (k ∈ keysFor f) <;> simp [firstSome, mapEmpty]

theorem buildFileMap_some {files : List ExtractedFile} {k : String} {f : ExtractedFile}
    (h : buildFileMap files k = some f) : f ∈ files ∧ k ∈ keysFor f := by
  rw [buildFileMap_apply] at h
  refine ⟨List.mem_reverse.mp (List.mem_of_find?_eq_some h), ?_⟩
  have := List.find?_some h
  simpa using this

theorem keysFor_cases {f : ExtractedFile} {k : String} (h : k ∈ keysFor f) :
    k = lowerStr f.name ∨ k = lowerStr f.path ∨
      (strHasChar '/' f.path = true ∧ k = lowerStr (afterFirstSlash f.path)) := by
  by_cases h3 : strHasChar '/' f.path = true <;> simp_all [keysFor]

theorem mem_extractLoop {f : ExtractedFile} :
    ∀ {idx : Nat} {entries : List ZipEntry}, f ∈ extractLoop idx entries →
      ∃ e ∈ entries, e.isDir = false ∧ ∃ j, f = fileOfEntry j e := by
  intro idx entries
  induction entries generalizing idx with
  | nil => simp [extractLoop]
  | cons e es ih =>
    intro h
    unfold extractLoop at h
    by_cases hd : e.isDir
    · rw [if_pos hd] at h
      obtain ⟨e', he', hdir, j, hj⟩ := ih h
      exact ⟨e', List.mem_cons_of_mem e he', hdir, j, hj⟩
    · rw [if_neg hd] at h
      rcases List.mem_cons.mp h with h | h
      · exact ⟨e, List.mem_cons_self e es, Bool.of_not_eq_true hd, idx, h⟩
      · obtain ⟨e', he', hdir, j, hj⟩ := ih h
        exact ⟨e', List.mem_cons_of_mem e he', hdir, j, hj⟩

theorem extracted_name_suffix {entries : List ZipEntry} {files : List ExtractedFile}
    (h : extractZipFile entries = Except.ok files) :
    ∀ f ∈ files, f.name.data <:+ f.path.data := by
  intro f hf
  have hf' : f ∈ extractLoop 0 entries := by
    unfold extractZipFile at h
    by_cases hc : ((extractLoop 0 entries).filter (·.isGltf)).length = 0
    · rw [if_pos hc] at h; cases h
    · rw [if_neg hc] at h
      cases h
      exact hf
  obtain ⟨e, _, _, j, hj⟩ := mem_extractLoop hf'
  subst hj
  exact popOrSelf_suffix e.path

theorem binFilesOf_mem {files : List ExtractedFile} {f : ExtractedFile} :
    f ∈ binFilesOf files ↔ f ∈ files ∧ strEndsWith (lowerStr f.name) ".bin" = true :=
  List.mem_filter

theorem head?_mem {α : Type} {l : List α} {a : α} (h : l.head? = some a) : a ∈ l := by
  cases l <;> simp_all

theorem map_toLower_bin : ".bin".data.map Char.toLower = ".bin".data := by decide

theorem map_toLower_gltf : ".gltf".data.map Char.toLower = ".gltf".data := by decide

theorem findFileBase_some_bin {files : List ExtractedFile} {n fn : String}
    {f : ExtractedFile} (hfnn : fn.data <:+ n.data) (hbin : ".bin".data <:+ fn.data)
    (h : findFileBase files n fn = some f) :
    f ∈ files ∧
      (".bin".data <:+ (lowerStr f.name).data ∨ ".bin".data <:+ (lowerStr f.path).data) := by
  have hbn : ".bin".data <:+ n.data := hbin.trans hfnn
  unfold findFileBase at h
  cases h1 : buildFileMap files n with
  | some f0 =>
    rw [h1, firstSome_some] at h
    cases h
    obtain ⟨hmem, hkey⟩ := buildFileMap_some h1
    refine ⟨hmem, ?_⟩
    rcases keysFor_cases hkey with hk | hk | ⟨_, hk⟩
    · exact Or.inl (hk ▸ hbn)
    · exact Or.inr (hk ▸ hbn)
    · refine Or.inr ((hk ▸ hbn).trans ?_)
      exact suffix_lowerStr (afterFirstSlash_suffix f.path)
  | none =>
  rw [h1, firstSome_none] at h
  cases h2 : buildFileMap files fn with
  | some f0 =>
    rw [h2, firstSome_some] at h
    cases h
    obtain ⟨hmem, hkey⟩ := buildFileMap_some h2
    refine ⟨hmem, ?_⟩
    rcases keysFor_cases hkey with hk | hk | ⟨_, hk⟩
    · exact Or.inl (hk ▸ hbin)
    · exact Or.inr (hk ▸ hbin)
    · refine Or.inr ((hk ▸ hbin).trans ?_)
      exact suffix_lowerStr (afterFirstSlash_suffix f.path)
  | none =>
  rw [h2, firstSome_none] at h
  cases h3 : files.find? (fun f => strEndsWith (lowerStr f.path) n) with
  | some f0 =>
    rw [h3, firstSome_some] at h
    cases h
    refine ⟨List.mem_of_find?_eq_some h3, Or.inr ?_⟩
    have hpred := List.find?_some h3
    exact hbn.trans (strEndsWith_iff.mp hpred)
  | none =>
  rw [h3, firstSome_none] at h
  cases h4 : files.find? (fun f => strEndsWith (lowerStr f.path) ("/" ++ fn)) with
  | some f0 =>
    rw [h4, firstSome_some] at h
    cases h
    refine ⟨List.mem_of_find?_eq_some h4, Or.inr ?_⟩
    have hsl : fn.data <:+ ("/" ++ fn).data := by
      rw [String.data_append]
      exact List.suffix_append _ _
    have hpred := List.find?_some h4
    exact (hbin.trans hsl).trans (strEndsWith_iff.mp hpred)
  | none =>
  rw [h4, firstSome_none] at h
  refine ⟨List.mem_of_find?_eq_some h, Or.inl ?_⟩
  have hpred := List.find?_some h
  have heq : lowerStr f.name = fn := by simpa using hpred
  exact heq ▸ hbin

theorem suffix_bin_lower {fn : String} (hbin : ".bin".data <:+ fn.data) :
    ".bin".data <:+ (lowerStr fn).data := by
  have := hbin.map Char.toLower
  rw [map_toLower_bin] at this
  exact this

theorem findFileBin_some_bin {files : List ExtractedFile} {n fn : String}
    {f : ExtractedFile} (hbin : ".bin".data <:+ fn.data)
    (h : findFileBin files n fn = some f) :
    f ∈ files ∧ ".bin".data <:+ (lowerStr f.name).data := by
  unfold findFileBin at h
  cases h1 : files.find? (fun f => lowerStr f.name == lowerStr fn) with
  | some f0 =>
    rw [h1, firstSome_some] at h
    cases h
    refine ⟨List.mem_of_find?_eq_some h1, ?_⟩
    have heq : lowerStr f.name = lowerStr fn := by
      simpa using List.find?_some h1
    exact heq ▸ suffix_bin_lower hbin
  | none =>
  rw [h1, firstSome_none] at h
  set q : ExtractedFile → Bool := fun f =>
    (splitOnChar '/' n.data).any (fun part =>
      (splitOnChar '/' (lowerStr f.path).data).contains (part.map Char.toLower)) with hq
  have hbinmem : ∀ g ∈ binFilesOf files,
      g ∈ files ∧ ".bin".data <:+ (lowerStr g.name).data := by
    intro g hg
    obtain ⟨hgf, hge⟩ := binFilesOf_mem.mp hg
    exact ⟨hgf, strEndsWith_iff.mp hge⟩
  cases hp : (binFilesOf files).filter q with
  | cons p rest =>
    rw [hp] at h
    cases h
    have : f ∈ (binFilesOf files).filter q := by rw [hp]; exact List.mem_cons_self f rest
    exact hbinmem f (List.mem_filter.mp this).1
  | nil =>
    rw [hp] at h
    exact hbinmem f (head?_mem h)

theorem findFileBin_isSome {files : List ExtractedFile} (n fn : String)
    (hne : binFilesOf files ≠ []) : ∃ f, findFileBin files n fn = some f := by
  unfold findFileBin
  cases h1 : files.find? (fun f => lowerStr f.name == lowerStr fn) with
  | some f0 => exact ⟨f0, by rw [firstSome_some]⟩
  | none =>
    rw [firstSome_none]
    cases hp : (binFilesOf files).filter (fun f =>
        (splitOnChar '/' n.data).any (fun part =>
          (splitOnChar '/' (lowerStr f.path).data).contains (part.map Char.toLower))) with
    | cons p rest => exact ⟨p, rfl⟩
    | nil =>
      cases hb : binFilesOf files with
      | nil => exact absurd hb hne
      | cons b bs => exact ⟨b, by simp⟩

theorem findFileNorm_some_bin {files : List ExtractedFile} {n fn : String}
    {f : ExtractedFile} (hfnn : fn.data <:+ n.data) (hbin : ".bin".data <:+ fn.data)
    (h : findFileNorm files n fn = some f) :
    f ∈ files ∧
      (".bin".data <:+ (lowerStr f.name).data ∨ ".bin".data <:+ (lowerStr f.path).data) := by
  unfold findFileNorm at h
  cases hb : findFileBase files n fn with
  | some f0 =>
    rw [hb] at h
    cases h
    exact findFileBase_some_bin hfnn hbin hb
  | none =>
    rw [hb] at h
    by_cases he : strEndsWith fn ".bin" = true
    · rw [if_pos he] at h
      obtain ⟨hmem, hsuf⟩ := findFileBin_some_bin hbin h
      exact ⟨hmem, Or.inl hsuf⟩
    · rw [if_neg he] at h
      cases h

theorem findFileNorm_bin_isSome {files : List ExtractedFile} (n fn : String)
    (hfn : strEndsWith fn ".bin" = true) (hne : binFilesOf files ≠ []) :
    ∃ f, findFileNorm files n fn = some f := by
  unfold findFileNorm
  cases hb : findFileBase files n fn with
  | some f0 => exact ⟨f0, rfl⟩
  | none =>
    rw [if_pos hfn]
    exact findFileBin_isSome n fn hne

theorem findFileBin_single {files : List ExtractedFile} {n fn : String}
    {b : ExtractedFile} (hpool : binFilesOf files = [b])
    (hbin : ".bin".data <:+ fn.data) : findFileBin files n fn = some b := by
  unfold findFileBin
  cases h1 : files.find? (fun f => lowerStr f.name == lowerStr fn) with
  | some f0 =>
    rw [firstSome_some]
    have hmem := List.mem_of_find?_eq_some h1
    have heq : lowerStr f0.name = lowerStr fn := by
      simpa using List.find?_some h1
    have hends : strEndsWith (lowerStr f0.name) ".bin" = true :=
      strEndsWith_iff.mpr (heq ▸ suffix_bin_lower hbin)
    have hf0 : f0 ∈ binFilesOf files := binFilesOf_mem.mpr ⟨hmem, hends⟩
    rw [hpool] at hf0
    have : f0 = b := by simpa using hf0
    rw [this]
  | none =>
    rw [firstSome_none, hpool]
    rcases Bool.eq_false_or_eq_true ((splitOnChar '/' n.data).any (fun part =>
        (splitOnChar '/' (lowerStr b.path).data).contains (part.map Char.toLower)))
      with hqb | hqb <;>
      simp only [List.filter_cons, List.filter_nil, hqb] <;> simp

theorem loadResource_bin {entries : List ZipEntry} {files : List ExtractedFile}
    {parseDoc : Nat → Option GltfDoc} {network : String → Option Nat} {url : String}
    (hex : extractZipFile entries = Except.ok files)
    (hpool : ∃ g ∈ files, strEndsWith (lowerStr g.name) ".bin" = true)
    (hfn : strEndsWith (refFilename (normalizeRef url)) ".bin" = true) :
    ∃ f ∈ files, findFile files url = some f ∧
      loadResource files parseDoc network url = LoadResult.bytes f.data := by
  obtain ⟨g, hg, hge⟩ := hpool
  have hne : binFilesOf files ≠ [] := List.ne_nil_of_mem (binFilesOf_mem.mpr ⟨hg, hge⟩)
  have hbin : ".bin".data <:+ (refFilename (normalizeRef url)).data := strEndsWith_iff.mp hfn
  have hfnn : (refFilename (normalizeRef url)).data <:+ (normalizeRef url).data :=
    popOrSelf_suffix (normalizeRef url)
  obtain ⟨f, hf⟩ :=
    findFileNorm_bin_isSome (normalizeRef url) (refFilename (normalizeRef url)) hfn hne
  obtain ⟨hmem, hor⟩ := findFileNorm_some_bin hfnn hbin hf
  have hfind : findFile files url = some f := hf
  have hgb : (f.isGltf && strEndsWith f.name ".gltf") = false := by
    cases hb : (f.isGltf && strEndsWith f.name ".gltf") with
    | false => rfl
    | true =>
      exfalso
      rw [Bool.and_eq_true] at hb
      have hgl : strEndsWith f.name ".gltf" = true := hb.2
      have hgld : ".gltf".data <:+ f.name.data := strEndsWith_iff.mp hgl
      have hgll : ".gltf".data <:+ (lowerStr f.name).data := by
        have hm := hgld.map Char.toLower
        rw [map_toLower_gltf] at hm
        exact hm
      cases hor with
      | inl hbn => exact bin_gltf_clash hbn hgll
      | inr hbp =>
        have hwf : f.name.data <:+ f.path.data := extracted_name_suffix hex f hmem
        exact bin_gltf_clash hbp (hgll.trans (suffix_lowerStr hwf))
  refine ⟨f, hmem, hfind, ?_⟩
  unfold loadResource
  rw [hfind]
  simp [hgb]

theorem toLower_eq_self {c : Char} (h : ¬(65 ≤ c.toNat ∧ c.toNat ≤ 90)) :
    c.toLower = c := by
  unfold Char.toLower
  exact if_neg h

theorem safeChar_toLower {c : Char}
    (h : c = '%' ∨ ('a' ≤ c ∧ c ≤ 'z') ∨ ('0' ≤ c ∧ c ≤ '9') ∨ c = '.' ∨ c = '/') :
    c.toLower = c := by
  apply toLower_eq_self
  rcases h with rfl | ⟨h1, h2⟩ | ⟨h1, h2⟩ | rfl | rfl
  · decide
  · have lb : (97 : Nat) ≤ c.toNat := h1
    rintro ⟨hA, hB⟩
    omega
  · have lb : (48 : Nat) ≤ c.toNat := h1
    have ub : c.toNat ≤ (57 : Nat) := h2
    rintro ⟨hA, hB⟩
    omega
  · decide
  · decide

theorem safeChar_ne_query {c : Char}
    (h : c = '%' ∨ ('a' ≤ c ∧ c ≤ 'z') ∨ ('0' ≤ c ∧ c ≤ '9') ∨ c = '.' ∨ c = '/') :
    c ≠ '?' := by
  rintro rfl
  exact absurd h (by decide)

theorem safeChar_ne_backslash {c : Char}
    (h : c = '%' ∨ ('a' ≤ c ∧ c ≤ 'z') ∨ ('0' ≤ c ∧ c ≤ '9') ∨ c = '.' ∨ c = '/') :
    c ≠ '\\' := by
  rintro rfl
  exact absurd h (by decide)

theorem list_map_eq_self {α : Type} {f : α → α} :
    ∀ {l : List α}, (∀ c ∈ l, f c = c) → l.map f = l := by
  intro l
  induction l with
  | nil => intro _; rfl
  | cons x xs ih =>
    intro h
    rw [List.map_cons, h x (List.mem_cons_self x xs),
      ih fun c hc => h c (List.mem_cons_of_mem x hc)]

theorem list_takeWhile_eq_self {α : Type} {p : α → Bool} :
    ∀ {l : List α}, (∀ c ∈ l, p c = true) → l.takeWhile p = l := by
  intro l
  induction l with
  | nil => intro _; rfl
  | cons x xs ih =>
    intro h
    rw [List.takeWhile_cons, if_pos (h x (List.mem_cons_self x xs)),
      ih fun c hc => h c (List.mem_cons_of_mem x hc)]

theorem rewriteList_append {α : Type} (step : α → α × List String) (l1 l2 : List α) :
    rewriteList step (l1 ++ l2) =
      ((rewriteList step l1).1 ++ (rewriteList step l2).1,
       (rewriteList step l1).2 ++ (rewriteList step l2).2) := by
  induction l1 with
  | nil => simp [rewriteList]
  | cons x xs ih => simp [rewriteList, ih]

theorem rewriteList_cons {α : Type} (step : α → α × List String) (x : α) (xs : List α) :
    rewriteList step (x :: xs) =
      ((step x).1 :: (rewriteList step xs).1, (step x).2 ++ (rewriteList step xs).2) := by
  simp [rewriteList]

end ZipUtils


namespace Examples

open ZipUtils

/-- Archive of the spec's worked example: a scene document in scene/, its
buffer beside it, and a texture in a sibling directory. -/
def exampleEntries : List ZipEntry :=
  [⟨"scene/model.gltf", false, 10⟩, ⟨"scene/buffer.bin", false, 11⟩,
   ⟨"textures/tex.png", false, 12⟩]

/-- Extraction result for the worked-example archive. -/
def exampleFiles : List ExtractedFile := extractLoop 0 exampleEntries

/-- The scene/buffer.bin member of the worked-example archive. -/
def sceneBufferFile : ExtractedFile :=
  ⟨"buffer.bin", "scene/buffer.bin", "blob:http://localhost/obj-1", false, 11⟩

/-- The textures/tex.png member of the worked-example archive. -/
def texFile : ExtractedFile :=
  ⟨"tex.png", "textures/tex.png", "blob:http://localhost/obj-2", false, 12⟩

/-- Archive with a scene document and two binary buffers, used to probe the
bin-file fallbacks. -/
def twoBinEntries : List ZipEntry :=
  [⟨"a/m.gltf", false, 1⟩, ⟨"a/x.bin", false, 2⟩, ⟨"duck/y.bin", false, 3⟩]

/-- Extraction result for the two-buffer archive. -/
def twoBinFiles : List ExtractedFile := extractLoop 0 twoBinEntries

/-- First binary buffer (in enumeration order) of the two-buffer archive. -/
def xBinFile : ExtractedFile :=
  ⟨"x.bin", "a/x.bin", "blob:http://localhost/obj-1", false, 2⟩

/-- Second binary buffer of the two-buffer archive. -/
def yBinFile : ExtractedFile :=
  ⟨"y.bin", "duck/y.bin", "blob:http://localhost/obj-2", false, 3⟩

/-- Archive with a root scene document and two binary buffers, used to probe
idempotence of the document rewriter. -/
def idemEntries : List ZipEntry :=
  [⟨"model.gltf", false, 1⟩, ⟨"a.bin", false, 2⟩, ⟨"b.bin", false, 3⟩]

/-- Extraction result for the idempotence archive. -/
def idemFiles : List ExtractedFile := extractLoop 0 idemEntries

/-- Scene document of the idempotence archive: one buffer referencing b.bin,
the second buffer of the pool. -/
def idemDoc : GltfDoc := ⟨none, some [⟨some "b.bin"⟩]⟩

/-- Archive of the spec's single-buffer example: exactly one binary-buffer
member, at models/duck/buffer0.bin. -/
def duckEntries : List ZipEntry :=
  [⟨"models/duck/duck.gltf", false, 1⟩, ⟨"models/duck/buffer0.bin", false, 2⟩]

/-- Extraction result for the single-buffer archive. -/
def duckFiles : List ExtractedFile := extractLoop 0 duckEntries

/-- The single binary buffer of the single-buffer archive. -/
def duckBinFile : ExtractedFile :=
  ⟨"buffer0.bin", "models/duck/buffer0.bin", "blob:http://localhost/obj-1", false, 2⟩

/-- Archive with two members sharing the basename t.png, used to probe Index
key overwrites. -/
def dupEntries : List ZipEntry :=
  [⟨"m.gltf", false, 1⟩, ⟨"a/t.png", false, 2⟩, ⟨"b/t.png", false, 3⟩]

/-- Extraction result for the duplicate-basename archive. -/
def dupFiles : List ExtractedFile := extractLoop 0 dupEntries

/-- The earlier of the two t.png members. -/
def dupFile1 : ExtractedFile :=
  ⟨"t.png", "a/t.png", "blob:http://localhost/obj-1", false, 2⟩

/-- The later of the two t.png members. -/
def dupFile2 : ExtractedFile :=
  ⟨"t.png", "b/t.png", "blob:http://localhost/obj-2", false, 3⟩

/-- Archive with no binary buffer, used to probe the unresolved-reference
behavior of the document rewriter. -/
def noBinEntries : List ZipEntry := [⟨"m.gltf", false, 1⟩, ⟨"t.png", false, 2⟩]

/-- Extraction result for the bufferless archive. -/
def noBinFiles : List ExtractedFile := extractLoop 0 noBinEntries

end Examples

open ZipUtils

/-- C1 (counterexample).  The claim asserts that the resolver chain's third
step is the exact Index lookup on the baseDir-prefixed reference and that, in
the worked-example archive, "buffer.bin" with baseDir "scene/" is returned
via that step while "tex.png" fails every Index lookup (steps 1-3) and is
found only by the final basename scan.  In the source, the baseDir-prefixed
Index lookup is the second lookup of the rewriter chain (not the third), and
both example references are already found by the very first lookup - the
plain Index lookup on the reference - because the Index registers the bare
basename of every member as a key.  The short-circuiting chain therefore
never reaches the baseDir-prefixed lookup for "buffer.bin", and "tex.png"
does not fail the Index lookups. -/
theorem C1_counterexample :
    (rewriteResolveStep Examples.exampleFiles "scene/" "buffer.bin").map Prod.fst = some 1 ∧
    ¬ (rewriteResolveStep Examples.exampleFiles "scene/" "buffer.bin").map Prod.fst = some 2 ∧
    (rewriteResolveStep Examples.exampleFiles "scene/" "tex.png").map Prod.fst = some 1 ∧
    buildFileMap Examples.exampleFiles "tex.png" ≠ none := by
  decide

/-- C1 (amended).  The rewriter resolves a reference through an ordered,
short-circuiting chain whose second lookup is the exact Index lookup on the
reference prefixed with baseDir; in the worked-example archive, resolving
"buffer.bin" with baseDir "scene/" returns the scene/buffer.bin Blob and
resolving "tex.png" with the same baseDir returns the textures/tex.png Blob,
both already at the first lookup (the exact Index lookup on the reference,
which matches the basename key registered for the member). -/
theorem C1_example_resolution :
    rewriteResolve Examples.exampleFiles "scene/" "buffer.bin" = some Examples.sceneBufferFile ∧
    rewriteResolveStep Examples.exampleFiles "scene/" "buffer.bin" =
      some (1, Examples.sceneBufferFile) ∧
    Examples.sceneBufferFile.path = "scene/buffer.bin" ∧
    rewriteResolve Examples.exampleFiles "scene/" "tex.png" = some Examples.texFile ∧
    rewriteResolveStep Examples.exampleFiles "scene/" "tex.png" = some (1, Examples.texFile) ∧
    Examples.texFile.path = "textures/tex.png" := by
  decide

/-- C2 (code bug).  Rewriting the scene document is not idempotent: in an
archive whose binary-buffer pool holds two members a.bin and b.bin, a buffer
whose uri resolves to b.bin is rewritten to b.bin's content handle, but
rewriting the already-rewritten document again fails to resolve that handle
and the rewriter's last-resort fallback replaces it with a.bin's handle - a
different handle, corrupting the reference.  The conjuncts evaluate the code
at the failing input: the archive extracts successfully, the first rewrite
issues the handle of b.bin (obj-2), and the second rewrite replaces it with
the handle of a.bin (obj-1). -/
theorem C2_rewrite_not_idempotent :
    extractZipFile Examples.idemEntries = Except.ok Examples.idemFiles ∧
    (rewriteGltfDoc Examples.idemFiles "model.gltf" Examples.idemDoc).1 =
      GltfDoc.mk none (some [⟨some "blob:http://localhost/obj-2"⟩]) ∧
    (rewriteGltfDoc Examples.idemFiles "model.gltf"
        (rewriteGltfDoc Examples.idemFiles "model.gltf" Examples.idemDoc).1).1 =
      GltfDoc.mk none (some [⟨some "blob:http://localhost/obj-1"⟩]) ∧
    (rewriteGltfDoc Examples.idemFiles "model.gltf"
        (rewriteGltfDoc Examples.idemFiles "model.gltf" Examples.idemDoc).1).1 ≠
      (rewriteGltfDoc Examples.idemFiles "model.gltf" Examples.idemDoc).1 :=
  ⟨rfl, by decide⟩

/-- C3 (counterexample).  The claim asserts that every key registered for a
Blob resolves back to that exact Blob, first write winning on collisions.  In
an archive holding a/t.png and then b/t.png, the key t.png is registered for
the earlier member (it is its lower-cased name), yet the Index resolves it to
the later member: the source re-sets name and stripped-path keys
unconditionally, so the later write wins. -/
theorem C3_counterexample :
    "t.png" ∈ keysFor Examples.dupFile1 ∧
    Examples.dupFile1 ∈ Examples.dupFiles ∧
    buildFileMap Examples.dupFiles "t.png" = some Examples.dupFile2 ∧
    Examples.dupFile2 ≠ Examples.dupFile1 := by
  decide

/-- C3 (amended).  Every key of the Index resolves to the most recently
inserted Blob that registers it: the lookup of any key equals the first match
over the reversed insertion order, so a later-inserted Blob overwrites an
existing name or stripped-path key, and a key registered by exactly one Blob
resolves back to that Blob. -/
theorem C3_last_write_wins (files : List ExtractedFile) (k : String) :
    buildFileMap files k = files.reverse.find? fun f => decide (k ∈ keysFor f) :=
  buildFileMap_apply files k

/-- C4 (counterexample).  The claim asserts that every .bin reference
matching no step of the lookup chain falls back to the first entry of the
binary-buffer pool.  In an archive with pool [a/x.bin, duck/y.bin], the
reference "duck/scene.bin" matches no chain step, yet the loader returns
duck/y.bin - the second pool entry - because an undocumented heuristic scan
for bin files sharing a slash-delimited path segment with the reference runs
before the first-pool-entry fallback. -/
theorem C4_counterexample :
    findFileBase Examples.twoBinFiles (normalizeRef "duck/scene.bin")
      (refFilename (normalizeRef "duck/scene.bin")) = none ∧
    strEndsWith (refFilename (normalizeRef "duck/scene.bin")) ".bin" = true ∧
    (binFilesOf Examples.twoBinFiles).head? = some Examples.xBinFile ∧
    findFile Examples.twoBinFiles "duck/scene.bin" = some Examples.yBinFile ∧
    Examples.yBinFile ≠ Examples.xBinFile := by
  decide

/-- C4 (amended).  For a .bin reference matching no step of the lookup chain,
the loader first scans for bin files whose path shares a slash-delimited
segment with the reference and only then falls back to the first pool entry;
when the binary-buffer pool holds exactly one member, every such reference
resolves to that member regardless of which branch fires - in particular
"scene.bin" resolves to a sole buffer stored at models/duck/buffer0.bin. -/
theorem C4_single_buffer_pool (files : List ExtractedFile) (url : String)
    (b : ExtractedFile) (hpool : binFilesOf files = [b])
    (hbase : findFileBase files (normalizeRef url) (refFilename (normalizeRef url)) = none)
    (hfn : strEndsWith (refFilename (normalizeRef url)) ".bin" = true) :
    findFile files url = some b := by
  show findFileNorm files (normalizeRef url) (refFilename (normalizeRef url)) = some b
  unfold findFileNorm
  rw [hbase, if_pos hfn]
  exact findFileBin_single hpool (strEndsWith_iff.mp hfn)

/-- C4 (witness).  The single-buffer archive of the spec example: resolving
"scene.bin" returns the sole buffer models/duck/buffer0.bin. -/
theorem C4_witness :
    binFilesOf Examples.duckFiles = [Examples.duckBinFile] ∧
    findFile Examples.duckFiles "scene.bin" = some Examples.duckBinFile ∧
    Examples.duckBinFile.path = "models/duck/buffer0.bin" :=
  ⟨by decide,
   C4_single_buffer_pool Examples.duckFiles "scene.bin" Examples.duckBinFile
     (by decide) (by decide) (by decide),
   by decide⟩

/-- C5 (counterexample).  The claim asserts that normalization includes
percent-decoding and that the filename is the final slash-delimited segment
of the normalized reference.  The source applies no percent-decoding - the
normalized form of tex%41.png keeps the escape verbatim while the spec's
normalization decodes it - and for a reference whose final segment is empty
the source uses the whole normalized string as the filename instead of the
empty final segment. -/
theorem C5_counterexample :
    normalizeRef "tex%41.png" ≠ SpecModel.specNormalizeRef "tex%41.png" ∧
    refFilename (normalizeRef "scene.bin/") ≠ lastSlashChunk (normalizeRef "scene.bin/") := by
  decide

/-- C5 (amended).  The loader's normalization consists of exactly stripping
the query component, lower-casing the whole string and replacing backslashes
with forward slashes - with no percent-decoding, so any reference built from
lowercase letters, digits, dots, slashes and percent signs passes through
verbatim, escapes included; the filename is the final slash-delimited segment
of the normalized reference when that segment is non-empty, and the whole
normalized reference otherwise. -/
theorem C5_normalization :
    (∀ s : String, normalizeRef s = replaceBackslash (lowerStr (beforeChar '?' s))) ∧
    (∀ l : List Char,
      (∀ c ∈ l, c = '%' ∨ ('a' ≤ c ∧ c ≤ 'z') ∨ ('0' ≤ c ∧ c ≤ '9') ∨ c = '.' ∨ c = '/') →
      normalizeRef ⟨l⟩ = ⟨l⟩) ∧
    (∀ s : String, refFilename s = if lastSlashChunk s = "" then s else lastSlashChunk s) := by
  refine ⟨fun s => rfl, ?_, fun s => rfl⟩
  intro l hl
  show replaceBackslash (lowerStr (beforeChar '?' ⟨l⟩)) = ⟨l⟩
  have h1 : beforeChar '?' ⟨l⟩ = ⟨l⟩ := by
    unfold beforeChar
    refine congrArg String.mk (list_takeWhile_eq_self fun c hc => ?_)
    simp [safeChar_ne_query (hl c hc)]
  have h2 : lowerStr ⟨l⟩ = ⟨l⟩ := by
    unfold lowerStr
    exact congrArg String.mk (list_map_eq_self fun c hc => safeChar_toLower (hl c hc))
  have h3 : replaceBackslash ⟨l⟩ = ⟨l⟩ := by
    unfold replaceBackslash
    refine congrArg String.mk (list_map_eq_self fun c hc => ?_)
    simp [safeChar_ne_backslash (hl c hc)]
  rw [h1, h2, h3]

/-- C5 (witness).  The escape-preservation part of the amended claim applied
at the concrete reference tex%41.png. -/
theorem C5_witness : normalizeRef "tex%41.png" = "tex%41.png" :=
  C5_normalization.2.1 "tex%41.png".data (by decide)

/-- C6 (confirmed).  An archive in which no file member carries the gltf or
glb extension fails extraction with the no-scene-document error, and no Blob
set is returned to the caller. -/
theorem C6_no_scene_document (entries : List ZipEntry)
    (h : ∀ e ∈ entries, e.isDir = false →
      extLower e.path ≠ "gltf" ∧ extLower e.path ≠ "glb") :
    extractZipFile entries = Except.error noSceneMsg := by
  unfold extractZipFile
  have hnil : (extractLoop 0 entries).filter (·.isGltf) = [] := by
    rw [List.filter_eq_nil_iff]
    intro f hf
    obtain ⟨e, he, hdir, j, hj⟩ := mem_extractLoop hf
    obtain ⟨h1, h2⟩ := h e he hdir
    subst hj
    simp [fileOfEntry, h1, h2]
  simp [hnil]

/-- C6 (witness).  A one-member archive holding only a PNG fails extraction
with the no-scene-document error. -/
theorem C6_witness :
    extractZipFile [⟨"a.png", false, 0⟩] = Except.error noSceneMsg :=
  C6_no_scene_document [⟨"a.png", false, 0⟩] (by decide)

/-- C7 (counterexample).  The claim asserts that the size-limit error
reports the actual input size exactly.  The toast renders the size rounded
to hundredths of a MiB, so two oversize inputs differing by one byte produce
the same reported value; the report cannot determine the actual size. -/
theorem C7_counterexample :
    524288001 > Viewer.MAX_FILE_SIZE ∧ 524288002 > Viewer.MAX_FILE_SIZE ∧
    (524288001 : Nat) ≠ 524288002 ∧
    Viewer.reportedCentiMiB 524288001 = Viewer.reportedCentiMiB 524288002 := by
  decide

/-- C7 (amended).  Every upload whose byte size exceeds the configured
maximum fails with the size-limit error before extraction is invoked - the
outcome is the same for every possible archive content - and the error
reports the input size rounded to hundredths of a MiB together with the
500 MB limit, not the exact byte count. -/
theorem C7_oversize_rejected (fileName : String) (size : Nat) (entries : List ZipEntry)
    (hzip : strEndsWith (lowerStr fileName) ".zip" = true)
    (hsize : size > Viewer.MAX_FILE_SIZE) :
    Viewer.handleZipFileUpload fileName size entries =
      Viewer.UploadResult.sizeError (Viewer.reportedCentiMiB size) 500 := by
  unfold Viewer.handleZipFileUpload
  rw [if_neg (by simp [hzip]), if_pos hsize]
  rfl

/-- C7 (witness).  A 524288001-byte ZIP upload is rejected with the rounded
size report 500.00 MiB (50000 hundredths) and the 500 MB limit, for an
arbitrary archive content. -/
theorem C7_witness :
    Viewer.handleZipFileUpload "model.zip" 524288001 [⟨"x.gltf", false, 0⟩] =
      Viewer.UploadResult.sizeError 50000 500 := by
  have h := C7_oversize_rejected "model.zip" 524288001 [⟨"x.gltf", false, 0⟩]
    (by decide) (by decide)
  rw [h]
  decide

/-- C8 (confirmed).  For an images or buffers entry whose uri resolves to no
member - for buffers, even after the buffer-only fallbacks - the rewriter
leaves the uri unchanged in the output document, emits a diagnostic naming
the reference, and rewrites the surrounding entries exactly as it would have
without the failing entry: rewriting is pointwise, so the failure is
non-fatal for the rest of the document. -/
theorem C8_unresolved_uri_preserved (files : List ExtractedFile) (gltfDir : String)
    (img : GltfImage) (u : String) (imgs1 imgs2 : List GltfImage)
    (buf : GltfBuffer) (v : String) (bufs1 bufs2 : List GltfBuffer)
    (hiu : img.uri = some u) (hune : u ≠ "")
    (hires : rewriteResolve files gltfDir u = none)
    (hbu : buf.uri = some v) (hvne : v ≠ "")
    (hbres : rewriteResolve files gltfDir v = none)
    (hbfall : bufferFallback files v = none) :
    (rewriteList (rewriteImage files gltfDir) (imgs1 ++ img :: imgs2)).1 =
      (rewriteList (rewriteImage files gltfDir) imgs1).1 ++
        img :: (rewriteList (rewriteImage files gltfDir) imgs2).1 ∧
    imageNotFoundMsg u (gltfDir ++ u) ∈
      (rewriteList (rewriteImage files gltfDir) (imgs1 ++ img :: imgs2)).2 ∧
    (rewriteList (rewriteBuffer files gltfDir) (bufs1 ++ buf :: bufs2)).1 =
      (rewriteList (rewriteBuffer files gltfDir) bufs1).1 ++
        buf :: (rewriteList (rewriteBuffer files gltfDir) bufs2).1 ∧
    bufferNotFoundMsg v ∈
      (rewriteList (rewriteBuffer files gltfDir) (bufs1 ++ buf :: bufs2)).2 := by
  have himg : rewriteImage files gltfDir img = (img, [imageNotFoundMsg u (gltfDir ++ u)]) := by
    unfold rewriteImage
    rw [hiu]
    simp only [hune, if_false, hires]
  have hbuf : rewriteBuffer files gltfDir buf =
      (buf, [bufferTryFallbackMsg v, bufferNotFoundMsg v]) := by
    unfold rewriteBuffer
    rw [hbu]
    simp only [hvne, if_false, hbres, hbfall]
  refine ⟨?_, ?_, ?_, ?_⟩
  · rw [rewriteList_append, rewriteList_cons, himg]
  · rw [rewriteList_append, rewriteList_cons, himg]
    simp
  · rw [rewriteList_append, rewriteList_cons, hbuf]
  · rw [rewriteList_append, rewriteList_cons, hbuf]
    simp

/-- C8 (witness).  In a bufferless archive, an images entry referencing
missing.png and a buffers entry referencing missing.bin are both left
unchanged with their diagnostics emitted. -/
theorem C8_witness :
    (rewriteList (rewriteImage Examples.noBinFiles "") [GltfImage.mk (some "missing.png")]).1 =
      [] ++ GltfImage.mk (some "missing.png") :: [] ∧
    imageNotFoundMsg "missing.png" ("" ++ "missing.png") ∈
      (rewriteList (rewriteImage Examples.noBinFiles "") [GltfImage.mk (some "missing.png")]).2 ∧
    (rewriteList (rewriteBuffer Examples.noBinFiles "") [GltfBuffer.mk (some "missing.bin")]).1 =
      [] ++ GltfBuffer.mk (some "missing.bin") :: [] ∧
    bufferNotFoundMsg "missing.bin" ∈
      (rewriteList (rewriteBuffer Examples.noBinFiles "") [GltfBuffer.mk (some "missing.bin")]).2 := by
  have h := C8_unresolved_uri_preserved Examples.noBinFiles ""
    (GltfImage.mk (some "missing.png")) "missing.png" [] []
    (GltfBuffer.mk (some "missing.bin")) "missing.bin" [] []
    rfl (by decide) (by decide) rfl (by decide) (by decide) (by decide)
  simpa [rewriteList] using h

/-- C9 (confirmed).  When the loader cannot resolve a reference to any Blob,
the network fetch of the reference is attempted as the last resort - its
bytes are returned verbatim on success - and on failure the loader surfaces
a fatal resource-load error for that one request whose message carries the
original reference string, with no further fallback after the failed fetch. -/
theorem C9_network_last_resort (files : List ExtractedFile)
    (parseDoc : Nat → Option GltfDoc) (network : String → Option Nat) (url : String)
    (hfind : findFile files url = none) :
    (∀ b, network url = some b →
      loadResource files parseDoc network url = LoadResult.bytes b) ∧
    (network url = none →
      loadResource files parseDoc network url = LoadResult.error (loadFailMsg url) ∧
      url.data <:+ (loadFailMsg url).data) := by
  constructor
  · intro b hb
    unfold loadResource
    rw [hfind]
    simp [hb]
  · intro hn
    constructor
    · unfold loadResource
      rw [hfind]
      simp [hn]
    · show url.data <:+ ("Failed to load " ++ url).data
      rw [String.data_append]
      exact List.suffix_append _ _

/-- C9 (witness).  Resolving missing.txt against the worked-example archive
with a failing network yields the resource-load error carrying the
reference. -/
theorem C9_witness :
    loadResource Examples.exampleFiles (fun _ => none) (fun _ => none) "missing.txt" =
      LoadResult.error (loadFailMsg "missing.txt") :=
  ((C9_network_last_resort Examples.exampleFiles (fun _ => none) (fun _ => none)
    "missing.txt" (by decide)).2 rfl).1

/-- C10 (confirmed).  For every extracted file set containing at least one
member whose name ends in .bin, and every reference whose filename ends in
.bin, the loader resolves some member from the archive and returns its
bytes: the error branch and the network fallback are unreachable under the
non-empty binary-buffer-pool precondition. -/
theorem C10_bin_total (entries : List ZipEntry) (files : List ExtractedFile)
    (parseDoc : Nat → Option GltfDoc) (network : String → Option Nat) (url : String)
    (hex : extractZipFile entries = Except.ok files)
    (hpool : ∃ g ∈ files, strEndsWith (lowerStr g.name) ".bin" = true)
    (hfn : strEndsWith (refFilename (normalizeRef url)) ".bin" = true) :
    ∃ f ∈ files, findFile files url = some f ∧
      loadResource files parseDoc network url = LoadResult.bytes f.data :=
  loadResource_bin hex hpool hfn

/-- C10 (witness).  Resolving scene.bin against the worked-example archive
returns the bytes of an archive member even with a failing network. -/
theorem C10_witness :
    ∃ f ∈ Examples.exampleFiles,
      findFile Examples.exampleFiles "scene.bin" = some f ∧
      loadResource Examples.exampleFiles (fun _ => none) (fun _ => none) "scene.bin" =
        LoadResult.bytes f.data :=
  C10_bin_total Examples.exampleEntries Examples.exampleFiles (fun _ => none)
    (fun _ => none) "scene.bin" rfl
    ⟨Examples.sceneBufferFile, by decide, by decide⟩ (by decide)
